import Mathlib

/-!
# Verification of the deepkit telemetry context (`src/deepkit/context.py`)

A shallow embedding of the telemetry aggregation engine of the deepkit
python SDK, together with proofs of its specified properties.

Conventions of the embedding:

* Python floats are modelled exactly.  Where the code does arithmetic on
  time stamps and durations (the rolling window, ETA, speed) we use `ℚ`;
  where the code only moves a float's bytes around (`struct.pack`
  / `struct.unpack` of `d` and `f` fields) we model the float by its IEEE-754
  bit pattern, a `ℕ` below `2 ^ 64` (resp. `2 ^ 32`), since `struct.pack`
  is injective on bit patterns and never inspects the numeric value.
* Byte strings are `List ℕ` with every entry below 256; `struct.pack`'s
  little-endian fields become `leBytes`.
* The RPC side effects of `Context` (`client.patch`, `client.job_action`,
  pushes into the rx subjects) are recorded as explicit event lists (`Ev`),
  in the order the code performs them.  The wire layer base64-encodes each
  payload; since base64 is injective we state properties of the raw bytes
  handed to `job_action`.
* Fallible operations (`step`, whose Python body can raise
  `ZeroDivisionError` / `TypeError`) return the events emitted before the
  exception together with an `Except` value.
-/

/-! ## Little-endian byte encoding (`struct.pack` / `struct.unpack`) -/

/-- `leBytes k n` is the `k`-byte little-endian encoding of `n`, exactly the
bytes `struct.pack` emits for an unsigned `k`-byte field holding `n`
(for `n < 256 ^ k`). -/
def leBytes : ℕ → ℕ → List ℕ
  | 0, _ => []
  | k + 1, n => n % 256 :: leBytes k (n / 256)

/-- Value of a little-endian byte list, the inverse reading of `leBytes`. -/
def readLE : List ℕ → ℕ
  | [] => 0
  | b :: rest => b + 256 * readLE rest

/-- Read a `k`-byte little-endian unsigned field from the front of a byte
list, returning the value and the remaining bytes (`struct.unpack` of one
field). -/
def readN (k : ℕ) (l : List ℕ) : Option (ℕ × List ℕ) :=
  if k ≤ l.length then some (readLE (l.take k), l.drop k) else none

/-- Read `n` consecutive 8-byte little-endian fields. -/
def readVals : ℕ → List ℕ → Option (List ℕ × List ℕ)
  | 0, l => some ([], l)
  | n + 1, l =>
    (readN 8 l).bind fun p =>
      (readVals n p.2).bind fun q => some (p.1 :: q.1, q.2)

/-! ## The rolling timing window

`Context.iteration` and `Context.step` both maintain
`self.seconds_per_iterations`, a list of `{'diff': …, 'when': …}` samples:
they append one sample, drop the entries older than twenty seconds, keep
the most recent thirty (`[-30:]`), and recompute
`self.seconds_per_iteration` as the mean of the retained diffs whenever the
retained window is non-empty. -/

/-- One timing sample: `{'diff': now - last_time, 'when': now}`. -/
structure Sample where
  diff : ℚ
  when : ℚ
deriving DecidableEq

/-- Python's `l[-30:]`, generalised: the last `n` elements of a list. -/
def takeLast (n : ℕ) (l : List α) : List α :=
  l.drop (l.length - n)

/-- Lines 203-204 / 237-238 of `context.py`: drop samples twenty seconds or
older, then keep the most recent thirty. -/
def pruneWindow (now : ℚ) (w : List Sample) : List Sample :=
  takeLast 30 (w.filter fun x => decide (now - x.when < 20))

/-- Arithmetic mean of the retained diffs: `sum(diffs) / len(diffs)`. -/
def meanDiffs (w : List Sample) : ℚ :=
  (w.map Sample.diff).sum / (w.length : ℚ)

/-- One record operation on the rolling window, as `iteration` and `step`
perform it: append the sample `{'diff': diff, 'when': now}`, prune, and
recompute the average rate if the retained window is non-empty (it keeps
its previous value otherwise, mirroring the `if len(...) > 0` guard). -/
def record (w : List Sample) (spi : ℚ) (diff now : ℚ) : List Sample × ℚ :=
  let w2 := pruneWindow now (w ++ [⟨diff, now⟩])
  (w2, if 0 < w2.length then meanDiffs w2 else spi)

/-- A whole sequence of record operations starting from the freshly
initialised state (`seconds_per_iterations = []`,
`seconds_per_iteration = 0`).  Each call supplies `(diff, now)`. -/
def recordTrace (calls : List (ℚ × ℚ)) : List Sample × ℚ :=
  calls.foldl (fun acc c => record acc.1 acc.2 c.1 c.2) ([], 0)

/-! ## The `Context` state and its observable effects -/

/-- One observable effect of a `Context` method, in the order the code
performs them.  `patch k v` is `self.client.patch(k, v)` with a numeric
value; `speedRow` is the push of the `struct.pack('<Bddd', 1, x, now,
speed)` row into `speed_report_subject` (abstracted by its three numeric
fields); `pushMetric` is `metric_subject.on_next({'id': …, 'row': …})`;
`patchChannelLast n ys` is the `channels.<n>.lastValue` patch;
`defineMetric` is the `defineMetric` job action;
the `complete…` events are the `on_completed()` calls of `shutdown`, and
`clientShutdown` is `self.client.shutdown()` (which closes the underlying
connection). -/
inductive Ev where
  | patch (key : String) (value : ℚ)
  | speedRow (x tstamp speed : ℚ)
  | defineMetric (name : String)
  | pushMetric (name : String) (row : List ℕ)
  | patchChannelLast (name : String) (ys : List (Option ℕ))
  | completeMetricSubject
  | completeLogSubject
  | completeSpeedSubject
  | completeHardwareTimer
  | clientShutdown
deriving DecidableEq

/-- The mutable state of `Context` that the verified methods touch:
`last_iteration_time`, `last_batch_time`, `job_iteration`,
`job_iterations`, `seconds_per_iteration`, `seconds_per_iterations`,
`defined_metrics` (only key membership matters, the stored value is always
`{}`), and the `shutting_down` latch. -/
structure Ctx where
  lastIterationTime : ℚ
  lastBatchTime : ℚ
  jobIteration : ℤ
  jobIterations : ℤ
  secondsPerIteration : ℚ
  secondsPerIterations : List Sample
  definedMetrics : List String
  shuttingDown : Bool
deriving DecidableEq

/-- The state right after `Context.__init__` (lines 71-86). -/
def initCtx : Ctx where
  lastIterationTime := 0
  lastBatchTime := 0
  jobIteration := 0
  jobIterations := 0
  secondsPerIteration := 0
  secondsPerIterations := []
  definedMetrics := []
  shuttingDown := false

/-- Python truthiness of the optional integer `total` (`if total:`):
falsy exactly when it is `None` or `0`. -/
def intTruthy : Option ℤ → Bool
  | none => false
  | some n => n != 0

/-- `Context.iteration(current, total)` (lines 187-221).  `now` is the
value of `time.time()` observed by the call.  Returns the new state and the
emitted effects in program order. -/
def iteration (s : Ctx) (now : ℚ) (current : ℤ) (total : Option ℤ) :
    Ctx × List Ev :=
  let jobIterations := if intTruthy total then total.getD 0 else s.jobIterations
  let w0 := if s.lastIterationTime ≠ 0 then
      s.secondsPerIterations ++ [⟨now - s.lastIterationTime, now⟩]
    else s.secondsPerIterations
  let w2 := pruneWindow now w0
  let spi := if 0 < w2.length then meanDiffs w2 else s.secondsPerIteration
  let left := jobIterations - current
  let evs :=
    (if spi ≠ 0 then [Ev.patch "secondsPerIteration" spi] else [])
      ++ [Ev.patch "iteration" (current : ℚ)]
      ++ (if intTruthy total then [Ev.patch "iterations" (jobIterations : ℚ)] else [])
      ++ [Ev.patch "eta" (if 0 < left then spi * (left : ℚ) else 0)]
  ({ s with lastIterationTime := now, lastBatchTime := now,
            jobIteration := current, jobIterations := jobIterations,
            secondsPerIteration := spi, secondsPerIterations := w2 }, evs)

/-- `Context.step(current, total, size)` (lines 223-258).  `now` is
`time.time()`.  The Python body raises before touching any state when
`total` is `None` (`TypeError` in `current / total`), when `total == 0`
(`ZeroDivisionError`), or when `last_batch_time` is truthy and equal to
`now` (`ZeroDivisionError` in `size / (now - last_batch_time)`); in all
three cases the only effect already performed is the `patch('step', …)` of
line 224, so the result carries that event list and an error.  `size` is
taken to be numeric (a `None` size would likewise raise a `TypeError`
before any state change; no claim concerns it). -/
def step (s : Ctx) (now : ℚ) (current : ℤ) (total : Option ℤ) (size : ℚ) :
    List Ev × Except String Ctx :=
  let ev0 : List Ev := [Ev.patch "step" (current : ℚ)]
  match total with
  | none => (ev0, Except.error "TypeError: unsupported operand types for /: int and NoneType")
  | some t =>
    if t = 0 then (ev0, Except.error "ZeroDivisionError: division by zero")
    else if s.lastBatchTime ≠ 0 ∧ now - s.lastBatchTime = 0 then
      (ev0, Except.error "ZeroDivisionError: float division by zero")
    else
      let x : ℚ := (s.jobIteration : ℚ) + (current : ℚ) / (t : ℚ)
      let speedPerSecond := if s.lastBatchTime ≠ 0 then size / (now - s.lastBatchTime) else size
      let w0 := if s.lastBatchTime ≠ 0 then
          s.secondsPerIterations ++ [⟨(now - s.lastBatchTime) * (t : ℚ), now⟩]
        else s.secondsPerIterations
      let w2 := pruneWindow now w0
      let spi := if 0 < w2.length then meanDiffs w2 else s.secondsPerIteration
      let evEta := if 0 < w2.length then
          [Ev.patch "eta" (spi * ((s.jobIterations - s.jobIteration : ℤ) : ℚ))]
        else []
      let evSpi := if spi ≠ 0 then [Ev.patch "secondsPerIteration" spi] else []
      let evs := ev0 ++ evEta ++ evSpi
        ++ [Ev.patch "speed" speedPerSecond, Ev.speedRow x now speedPerSecond]
        ++ (if intTruthy (some t) then [Ev.patch "steps" (t : ℚ)] else [])
      (evs, Except.ok { s with lastBatchTime := now,
                               secondsPerIteration := spi,
                               secondsPerIterations := w2 })

/-! ## Binary row encoders (`struct.pack` calls) -/

/-- The metric row of `Context.metric` (lines 301-303):
`struct.pack('<BHdd', 1, len(y), float(x), time.time())` followed by one
`struct.pack('<d', float(y1) if y1 is not None else 0.0)` per value.  A
value is an optional 64-bit IEEE bit pattern; `None` packs the bits of
`0.0`, which are `0`. -/
def metricRow (yVals : List (Option ℕ)) (xBits tsBits : ℕ) : List ℕ :=
  leBytes 1 1 ++ leBytes 2 yVals.length ++ leBytes 8 xBits ++ leBytes 8 tsBits
    ++ (yVals.map fun y => leBytes 8 (y.getD 0)).flatten

/-- Decoder for the metric row layout: version(1B) · valueCount(2B) ·
x(8B) · timestamp(8B) · valueCount × value(8B). -/
def decodeMetricRow (l : List ℕ) :
    Option (ℕ × ℕ × ℕ × ℕ × List ℕ) :=
  (readN 1 l).bind fun v =>
    (readN 2 v.2).bind fun cnt =>
      (readN 8 cnt.2).bind fun x =>
        (readN 8 x.2).bind fun ts =>
          (readVals cnt.1 ts.2).bind fun vals =>
            some (v.1, cnt.1, x.1, ts.1, vals.1)

/-- Python's `int()` applied to a rational: truncation toward zero. -/
def pyInt (q : ℚ) : ℤ :=
  if 0 ≤ q then ⌊q⌋ else -⌊-q⌋

/-- The scaling of a utilization fraction to the 16-bit field in
`on_hardware_metrics` (lines 158-159): `int(fraction * 65535)`.  The
result is used as an unsigned 2-byte `struct` field, hence the `toNat`
(for a fraction in `[0, 1]` the integer is already non-negative). -/
def scale16 (frac : ℚ) : ℕ :=
  (pyInt (frac * 65535)).toNat

/-- The hardware row of `on_hardware_metrics` (lines 153-164):
`struct.pack('<BHdHHffff', 1, 0, time.time(), int(cpuFrac*65535),
int(memFrac*65535), recv, sent, written, read)`.  The `d` and `f` float
fields are modelled by their IEEE bit patterns. -/
def hardwareRow (tsBits : ℕ) (cpuFrac memFrac : ℚ)
    (recvBits sentBits wBits rBits : ℕ) : List ℕ :=
  leBytes 1 1 ++ leBytes 2 0 ++ leBytes 8 tsBits
    ++ leBytes 2 (scale16 cpuFrac) ++ leBytes 2 (scale16 memFrac)
    ++ leBytes 4 recvBits ++ leBytes 4 sentBits ++ leBytes 4 wBits ++ leBytes 4 rBits

/-- Decoder for the hardware row layout: version(1B) · reserved(2B) ·
timestamp(8B) · cpu(2B) · mem(2B) · netRecv(4B) · netSent(4B) ·
diskWritten(4B) · diskRead(4B). -/
def decodeHardwareRow (l : List ℕ) :
    Option (ℕ × ℕ × ℕ × ℕ × ℕ × ℕ × ℕ × ℕ × ℕ) :=
  (readN 1 l).bind fun v =>
    (readN 2 v.2).bind fun res =>
      (readN 8 res.2).bind fun ts =>
        (readN 2 ts.2).bind fun cpu =>
          (readN 2 cpu.2).bind fun mem =>
            (readN 4 mem.2).bind fun recv =>
              (readN 4 recv.2).bind fun sent =>
                (readN 4 sent.2).bind fun w =>
                  (readN 4 w.2).bind fun r =>
                    some (v.1, res.1, ts.1, cpu.1, mem.1, recv.1, sent.1, w.1, r.1)

/-! ## `Context.metric` and `Context.shutdown` -/

/-- `Context.metric(name, x, y)` (lines 294-306): lazily define the
channel on first use (`define_metric` records the name and issues the
`defineMetric` job action), encode one row, push it into the metric
subject, and patch the channel's last value.  `y` is taken already
normalised to a list (the code wraps a scalar into `[y]`). -/
def metric (s : Ctx) (name : String) (yVals : List (Option ℕ))
    (xBits tsBits : ℕ) : Ctx × List Ev :=
  let row := metricRow yVals xBits tsBits
  if name ∈ s.definedMetrics then
    (s, [Ev.pushMetric name row, Ev.patchChannelLast name yVals])
  else
    ({ s with definedMetrics := name :: s.definedMetrics },
     [Ev.defineMetric name, Ev.pushMetric name row, Ev.patchChannelLast name yVals])

/-- `Context.shutdown` (lines 176-182): guarded by the `shutting_down`
latch; completes the metric subject, then the log subject, then calls
`self.client.shutdown()`.  The speed-report subject and the hardware
interval are not completed. -/
def shutdown (s : Ctx) : Ctx × List Ev :=
  if s.shuttingDown then (s, [])
  else ({ s with shuttingDown := true },
        [Ev.completeMetricSubject, Ev.completeLogSubject, Ev.clientShutdown])

/-! ## The windowed dispatchers (`on_metric`, `on_speed_report`) -/

/-- An outbound `job_action` issued by a dispatcher flush. -/
inductive Call where
  | channelData (id : String) (payload : List ℕ)
  | streamFile (path : String) (payload : List ℕ)
deriving DecidableEq

/-- One step of the `packed` accumulation loop of `on_metric` (lines
112-117): a Python dict keeps insertion order, so it is an association
list to which a new key is appended and whose existing entry is extended
by concatenation. -/
def packInsert (acc : List (String × List ℕ)) (id : String) (row : List ℕ) :
    List (String × List ℕ) :=
  match acc with
  | [] => [(id, row)]
  | (k, v) :: rest =>
    if k = id then (k, v ++ row) :: rest else (k, v) :: packInsert rest id row

/-- The `packed` dict built by `on_metric` from the rows buffered in one
1-second window, in insertion order. -/
def packMetrics (data : List (String × List ℕ)) : List (String × List ℕ) :=
  data.foldl (fun acc d => packInsert acc d.1 d.2) []

/-- `on_metric(data)` (lines 109-120): empty windows issue no call;
otherwise one `channelData` job action per entry of `packed`. -/
def on_metric (data : List (String × List ℕ)) : List Call :=
  if data = [] then []
  else (packMetrics data).map fun p => Call.channelData p.1 p.2

/-- `on_speed_report(rows)` (lines 124-127): empty windows issue no call;
otherwise one `streamFile` job action carrying only `rows[-1]`. -/
def on_speed_report (rows : List (List ℕ)) : List Call :=
  if rows = [] then []
  else [Call.streamFile ".deepkit/speed.metric" (rows.getLastD [])]

/-- Association-list lookup on the groups a flush produced. -/
def lookupGroup (c : String) : List (String × List ℕ) → Option (List ℕ)
  | [] => none
  | (k, v) :: rest => if k = c then some v else lookupGroup c rest

/-! ## Specification-side definitions (for the refinement claims)

These two definitions follow the words of the specification, not the
code, and exist only to be compared with `packMetrics`. -/

/-- Modelled from the spec: "order of first appearance" — fold the channel
names, appending each name the first time it is seen. -/
def specFirstAppearanceKeys (keys : List String) : List String :=
  keys.foldl (fun ks k => if k ∈ ks then ks else ks ++ [k]) []

/-- Modelled from the spec: "within-channel rows concatenated in arrival
order" — the concatenation of the rows pushed for channel `c`. -/
def specChannelBytes (c : String) (data : List (String × List ℕ)) : List ℕ :=
  ((data.filter fun p => decide (p.1 = c)).map Prod.snd).flatten

/-! ## Concrete trace for the stale-average counterexample -/

/-- First call of the C7 trace: `step(1, 2, 1)` at time 100 on a fresh
context. -/
def c7Step1 : Ctx :=
  ((step initCtx 100 1 (some 2) 1).2).toOption.getD initCtx

/-- Second call of the C7 trace: `step(1, 2, 1)` at time 101. -/
def c7Step2 : Ctx :=
  ((step c7Step1 101 1 (some 2) 1).2).toOption.getD initCtx

/-- Third call of the C7 trace: `iteration(1, 2)` at time 130, which
prunes the whole window by age while `last_iteration_time` is still `0`,
so no fresh sample is appended. -/
def c7FinalCtx : Ctx :=
  (iteration c7Step2 130 1 (some 2)).1

/-- The events of calling `shutdown()` twice on a fresh context. -/
def shutdownTwiceEvents : List Ev :=
  (shutdown initCtx).2 ++ (shutdown (shutdown initCtx).1).2

/-! ## Lemmas: little-endian round trip -/

theorem leBytes_length (k n : ℕ) : (leBytes k n).length = k := by
  induction k generalizing n with
  | zero => rfl
  | succ k ih => simp [leBytes, ih]

theorem readLE_leBytes (k n : ℕ) (h : n < 256 ^ k) :
    readLE (leBytes k n) = n := by
  induction k generalizing n with
  | zero =>
    simp only [pow_zero, Nat.lt_one_iff] at h
    simp [h, leBytes, readLE]
  | succ k ih =>
    have hdiv : n / 256 < 256 ^ k := by
      rw [Nat.div_lt_iff_lt_mul (by norm_num)]
      calc n < 256 ^ (k + 1) := h
        _ = 256 ^ k * 256 := by ring
    simp only [leBytes, readLE, ih (n / 256) hdiv]
    omega

theorem readN_leBytes (k n : ℕ) (rest : List ℕ) (h : n < 256 ^ k) :
    readN k (leBytes k n ++ rest) = some (n, rest) := by
  have hlen : (leBytes k n).length = k := leBytes_length k n
  have hle : k ≤ (leBytes k n ++ rest).length := by
    simp [List.length_append, hlen]
  rw [readN, if_pos hle, List.take_append_of_le_length (le_of_eq hlen.symm),
      List.drop_append_of_le_length (le_of_eq hlen.symm),
      List.take_of_length_le (le_of_eq hlen), List.drop_eq_nil_of_le (le_of_eq hlen)]
  simp [readLE_leBytes k n h]

theorem readVals_flatten (vals : List ℕ) (rest : List ℕ)
    (h : ∀ v ∈ vals, v < 2 ^ 64) :
    readVals vals.length ((vals.map (leBytes 8)).flatten ++ rest)
      = some (vals, rest) := by
  induction vals with
  | nil => simp [readVals]
  | cons v vs ih =>
    have hv : v < 256 ^ 8 := by
      have := h v (List.mem_cons_self v vs)
      norm_num at this ⊢
      omega
    simp only [List.map_cons, List.flatten_cons, List.length_cons,
      List.append_assoc, readVals,
      readN_leBytes 8 v _ hv, Option.some_bind]
    rw [ih (fun w hw => h w (List.mem_cons_of_mem v hw))]
    rfl

/-! ## C2: metric row round trip -/

/-- C2: Encoding a metric row (1-byte version 1, 2-byte little-endian
value count, 8-byte x, 8-byte timestamp, then one 8-byte field per value,
`None` encoding as the bits of `0.0`) and decoding it by that same layout
recovers the version, the value count, `x`, the timestamp and every value
exactly. -/
theorem metricRow_roundtrip (yVals : List (Option ℕ)) (xBits tsBits : ℕ)
    (hc : yVals.length < 65536) (hx : xBits < 2 ^ 64) (ht : tsBits < 2 ^ 64)
    (hy : ∀ y ∈ yVals, y.getD 0 < 2 ^ 64) :
    decodeMetricRow (metricRow yVals xBits tsBits)
      = some (1, yVals.length, xBits, tsBits, yVals.map fun y => y.getD 0) := by
  have h1 : (1 : ℕ) < 256 ^ 1 := by norm_num
  have h2 : yVals.length < 256 ^ 2 := by norm_num; omega
  have hx8 : xBits < 256 ^ 8 := by norm_num at hx ⊢; omega
  have ht8 : tsBits < 256 ^ 8 := by norm_num at ht ⊢; omega
  have hvals : ∀ v ∈ yVals.map (fun y => y.getD 0), v < 2 ^ 64 := by
    intro v hv
    rcases List.mem_map.mp hv with ⟨y, hy1, rfl⟩
    exact hy y hy1
  have hflat : (yVals.map fun y => leBytes 8 (y.getD 0)).flatten
      = ((yVals.map fun y => y.getD 0).map (leBytes 8)).flatten := by
    rw [List.map_map]
    rfl
  have hlen : yVals.length = (yVals.map fun y => y.getD 0).length := by
    rw [List.length_map]
  rw [metricRow, decodeMetricRow]
  rw [List.append_assoc, List.append_assoc, List.append_assoc]
  rw [readN_leBytes 1 1 _ h1, Option.some_bind]
  rw [readN_leBytes 2 _ _ h2, Option.some_bind]
  rw [readN_leBytes 8 _ _ hx8, Option.some_bind]
  rw [readN_leBytes 8 _ _ ht8, Option.some_bind]
  have hrv : readVals (yVals.map fun y => y.getD 0).length
      (((yVals.map fun y => y.getD 0).map (leBytes 8)).flatten)
      = some (yVals.map fun y => y.getD 0, []) := by
    have h := readVals_flatten (yVals.map fun y => y.getD 0) [] hvals
    simpa using h
  simp only [hflat, hlen, hrv, Option.some_bind]

/-- Witness for C2, at the spec's example: `values = [1.5, -2.0]`
(IEEE-754 bit patterns `0x3FF8000000000000` and `0xC000000000000000`),
`x = 3.0` (`0x4008000000000000`), and a concrete timestamp bit pattern. -/
theorem metricRow_roundtrip_witness :
    (([some 0x3FF8000000000000, some 0xC000000000000000] : List (Option ℕ)).length < 65536
      ∧ (0x4008000000000000 : ℕ) < 2 ^ 64
      ∧ (0x41D86E4B9A000000 : ℕ) < 2 ^ 64
      ∧ ∀ y ∈ ([some 0x3FF8000000000000, some 0xC000000000000000] : List (Option ℕ)),
          y.getD 0 < 2 ^ 64)
    ∧ decodeMetricRow
        (metricRow [some 0x3FF8000000000000, some 0xC000000000000000]
          0x4008000000000000 0x41D86E4B9A000000)
        = some (1, 2, 0x4008000000000000, 0x41D86E4B9A000000,
            [0x3FF8000000000000, 0xC000000000000000]) :=
  ⟨⟨by decide, by decide, by decide, by decide⟩,
   metricRow_roundtrip [some 0x3FF8000000000000, some 0xC000000000000000]
     0x4008000000000000 0x41D86E4B9A000000
     (by decide) (by decide) (by decide) (by decide)⟩

/-! ## C1: rolling window invariants -/

theorem record_window_inv (w : List Sample) (spi diff now : ℚ)
    (hs : List.Pairwise (fun a b => a.when ≤ b.when) w)
    (hw : ∀ s ∈ w, s.when ≤ now) :
    List.Pairwise (fun a b => a.when ≤ b.when) (record w spi diff now).1
    ∧ (∀ s ∈ (record w spi diff now).1, s.when ≤ now)
    ∧ (∀ s ∈ (record w spi diff now).1, now - s.when < 20)
    ∧ (record w spi diff now).1.length ≤ 30
    ∧ (record w spi diff now).1 ≠ []
    ∧ (record w spi diff now).2 = meanDiffs (record w spi diff now).1 := by
  have hfa : (w ++ [(⟨diff, now⟩ : Sample)]).filter
        (fun x => decide (now - x.when < 20))
      = w.filter (fun x => decide (now - x.when < 20)) ++ [(⟨diff, now⟩ : Sample)] := by
    rw [List.filter_append]
    congr 1
    simp
  set u := w.filter (fun x => decide (now - x.when < 20)) with hu
  set k := (u.length + 1) - 30 with hk
  have hkle : k ≤ u.length := by omega
  have hlen1 : (u ++ [(⟨diff, now⟩ : Sample)]).length - 30 = k := by
    simp [hk]
  have huw : u ⊆ w := by
    rw [hu]
    exact (List.filter_sublist w).subset
  have hdru : u.drop k ⊆ u := (List.drop_sublist k u).subset
  have hw2 : (record w spi diff now).1 = u.drop k ++ [(⟨diff, now⟩ : Sample)] := by
    show pruneWindow now (w ++ [(⟨diff, now⟩ : Sample)]) = _
    rw [pruneWindow, takeLast, hfa, hlen1, List.drop_append_of_le_length hkle]
  have hmem : ∀ s ∈ (record w spi diff now).1,
      s ∈ u ∨ s = (⟨diff, now⟩ : Sample) := by
    intro s hsmem
    rw [hw2] at hsmem
    rcases List.mem_append.mp hsmem with h | h
    · exact Or.inl (hdru h)
    · exact Or.inr (List.mem_singleton.mp h)
  refine ⟨?_, ?_, ?_, ?_, ?_, ?_⟩
  · rw [hw2]
    rw [List.pairwise_append]
    refine ⟨(hs.sublist (List.filter_sublist w)).sublist (List.drop_sublist k u), by simp, ?_⟩
    intro a ha b hb
    rw [List.mem_singleton] at hb
    subst hb
    exact hw a (huw (hdru ha))
  · intro s hsmem
    rcases hmem s hsmem with h | h
    · exact hw s (huw h)
    · rw [h]
  · intro s hsmem
    rcases hmem s hsmem with h | h
    · rw [hu] at h
      have := List.of_mem_filter h
      exact of_decide_eq_true this
    · rw [h]
      norm_num
  · rw [hw2]
    have := List.length_drop k u
    simp only [List.length_append, List.length_cons, List.length_nil, this]
    omega
  · rw [hw2]
    simp
  · have hpw : pruneWindow now (w ++ [(⟨diff, now⟩ : Sample)])
        = List.drop k u ++ [(⟨diff, now⟩ : Sample)] := hw2
    have hpos : 0 < (pruneWindow now (w ++ [(⟨diff, now⟩ : Sample)])).length := by
      rw [hpw]
      simp
    show (if 0 < (pruneWindow now (w ++ [(⟨diff, now⟩ : Sample)])).length
        then meanDiffs (pruneWindow now (w ++ [(⟨diff, now⟩ : Sample)]))
        else spi) = _
    rw [if_pos hpos, hpw, hw2]

theorem recordTrace_inv (calls : List (ℚ × ℚ)) :
    ∀ (w : List Sample) (spi T : ℚ),
    List.Pairwise (fun a b => a.when ≤ b.when) w →
    (∀ s ∈ w, s.when ≤ T) →
    List.Chain (· ≤ ·) T (calls.map Prod.snd) →
    calls ≠ [] →
    List.Pairwise (fun a b => a.when ≤ b.when)
      (calls.foldl (fun acc c => record acc.1 acc.2 c.1 c.2) (w, spi)).1
    ∧ (∀ s ∈ (calls.foldl (fun acc c => record acc.1 acc.2 c.1 c.2) (w, spi)).1,
        s.when ≤ (calls.map Prod.snd).getLastD T)
    ∧ (∀ s ∈ (calls.foldl (fun acc c => record acc.1 acc.2 c.1 c.2) (w, spi)).1,
        (calls.map Prod.snd).getLastD T - s.when < 20)
    ∧ (calls.foldl (fun acc c => record acc.1 acc.2 c.1 c.2) (w, spi)).1.length ≤ 30
    ∧ (calls.foldl (fun acc c => record acc.1 acc.2 c.1 c.2) (w, spi)).1 ≠ []
    ∧ (calls.foldl (fun acc c => record acc.1 acc.2 c.1 c.2) (w, spi)).2
        = meanDiffs (calls.foldl (fun acc c => record acc.1 acc.2 c.1 c.2) (w, spi)).1 := by
  induction calls with
  | nil => intro w spi T _ _ _ hne; exact absurd rfl hne
  | cons c rest ih =>
    intro w spi T hs hw hch _
    rw [List.map_cons, List.chain_cons] at hch
    obtain ⟨hTc, hchain⟩ := hch
    have hwc : ∀ s ∈ w, s.when ≤ c.2 := fun s hs' => le_trans (hw s hs') hTc
    have hrec := record_window_inv w spi c.1 c.2 hs hwc
    rw [List.foldl_cons, List.map_cons, List.getLastD_cons]
    rcases Decidable.em (rest = []) with hre | hre
    · subst hre
      simpa using hrec
    · exact ih (record w spi c.1 c.2).1 (record w spi c.1 c.2).2 c.2
        hrec.1 hrec.2.1 hchain hre

/-- C1: After every non-empty sequence of record operations on the rolling
timing window performed at non-decreasing times (a sample appended by
`iteration` or `step`, then pruned), the window retains at most 30
samples, every retained sample satisfies `now - observedAt < 20` seconds
for the time `now` of the last operation, the samples are in chronological
(oldest-first) order, and the derived average rate
`seconds_per_iteration` equals the arithmetic mean of the retained diff
values. -/
theorem rolling_window_invariants (calls : List (ℚ × ℚ)) (hne : calls ≠ [])
    (hmono : List.Chain' (· ≤ ·) (calls.map Prod.snd)) :
    (recordTrace calls).1.length ≤ 30
    ∧ (∀ s ∈ (recordTrace calls).1,
        (calls.map Prod.snd).getLastD 0 - s.when < 20)
    ∧ List.Pairwise (fun a b => a.when ≤ b.when) (recordTrace calls).1
    ∧ (recordTrace calls).1 ≠ []
    ∧ (recordTrace calls).2 = meanDiffs (recordTrace calls).1 := by
  match calls, hne with
  | c :: rest, _ =>
    have hch : List.Chain (· ≤ ·) c.2 ((c :: rest).map Prod.snd) := by
      rw [List.map_cons]
      exact List.Chain.cons (le_refl c.2) (by simpa [List.chain'_cons] using hmono)
    have h := recordTrace_inv (c :: rest) [] 0 c.2 (by simp) (by simp) hch (by simp)
    have hLD : ((c :: rest).map Prod.snd).getLastD c.2
        = ((c :: rest).map Prod.snd).getLastD 0 := by
      rw [List.map_cons, List.getLastD_cons, List.getLastD_cons]
    rw [hLD] at h
    exact ⟨h.2.2.2.1, h.2.2.1, h.1, h.2.2.2.2.1, h.2.2.2.2.2⟩

/-- Witness for C1: the two-record trace `record(1, 100); record(2, 101)`. -/
theorem rolling_window_invariants_witness :
    (([((1 : ℚ), (100 : ℚ)), (2, 101)] : List (ℚ × ℚ)) ≠ []
      ∧ List.Chain' (· ≤ ·) (([((1 : ℚ), (100 : ℚ)), (2, 101)] : List (ℚ × ℚ)).map Prod.snd))
    ∧ ((recordTrace [((1 : ℚ), (100 : ℚ)), (2, 101)]).1.length ≤ 30
      ∧ (∀ s ∈ (recordTrace [((1 : ℚ), (100 : ℚ)), (2, 101)]).1,
          (([((1 : ℚ), (100 : ℚ)), (2, 101)] : List (ℚ × ℚ)).map Prod.snd).getLastD 0 - s.when < 20)
      ∧ List.Pairwise (fun a b => a.when ≤ b.when) (recordTrace [((1 : ℚ), (100 : ℚ)), (2, 101)]).1
      ∧ (recordTrace [((1 : ℚ), (100 : ℚ)), (2, 101)]).1 ≠ []
      ∧ (recordTrace [((1 : ℚ), (100 : ℚ)), (2, 101)]).2
          = meanDiffs (recordTrace [((1 : ℚ), (100 : ℚ)), (2, 101)]).1) :=
  ⟨⟨by simp, by norm_num⟩,
   rolling_window_invariants [((1 : ℚ), (100 : ℚ)), (2, 101)] (by simp) (by norm_num)⟩

/-! ## C3: metrics flush grouping -/

theorem packInsert_keys (acc : List (String × List ℕ)) (id : String) (row : List ℕ) :
    (packInsert acc id row).map Prod.fst
      = if id ∈ acc.map Prod.fst then acc.map Prod.fst
        else acc.map Prod.fst ++ [id] := by
  induction acc with
  | nil => simp [packInsert]
  | cons p rest ih =>
    obtain ⟨k, v⟩ := p
    by_cases hk : k = id
    · subst hk
      simp [packInsert]
    · simp only [packInsert, if_neg hk, List.map_cons, ih]
      by_cases hmem : id ∈ rest.map Prod.fst
      · simp [hmem, Ne.symm hk]
      · simp [hmem, Ne.symm hk]

theorem packMetrics_keys_aux (data : List (String × List ℕ)) :
    ∀ acc : List (String × List ℕ),
    (data.foldl (fun a d => packInsert a d.1 d.2) acc).map Prod.fst
      = (data.map Prod.fst).foldl
          (fun ks k => if k ∈ ks then ks else ks ++ [k]) (acc.map Prod.fst) := by
  induction data with
  | nil => intro acc; simp
  | cons d rest ih =>
    intro acc
    rw [List.foldl_cons, List.map_cons, List.foldl_cons, ih, packInsert_keys]

theorem packMetrics_keys (data : List (String × List ℕ)) :
    (packMetrics data).map Prod.fst = specFirstAppearanceKeys (data.map Prod.fst) := by
  have h := packMetrics_keys_aux data []
  simpa [packMetrics, specFirstAppearanceKeys] using h

theorem foldl_insKey_nodup (keys : List String) :
    ∀ ks : List String, ks.Nodup →
    (keys.foldl (fun ks k => if k ∈ ks then ks else ks ++ [k]) ks).Nodup := by
  induction keys with
  | nil => intro ks h; simpa
  | cons k rest ih =>
    intro ks h
    rw [List.foldl_cons]
    apply ih
    by_cases hk : k ∈ ks
    · simpa [hk]
    · simp [hk, List.nodup_append, h]

theorem specChannelBytes_cons (c : String) (d : String × List ℕ)
    (rest : List (String × List ℕ)) :
    specChannelBytes c (d :: rest)
      = if d.1 = c then d.2 ++ specChannelBytes c rest
        else specChannelBytes c rest := by
  by_cases h : d.1 = c <;> simp [specChannelBytes, List.filter_cons, h]

theorem lookupGroup_packInsert (c id : String) (row : List ℕ)
    (acc : List (String × List ℕ)) :
    lookupGroup c (packInsert acc id row)
      = if id = c then some ((lookupGroup c acc).getD [] ++ row)
        else lookupGroup c acc := by
  induction acc with
  | nil => by_cases h : id = c <;> simp [packInsert, lookupGroup, h]
  | cons p rest ih =>
    obtain ⟨k, v⟩ := p
    by_cases hk : k = id
    · subst hk
      by_cases hc : k = c
      · subst hc
        simp [packInsert, lookupGroup]
      · simp [packInsert, lookupGroup, hc]
    · by_cases hc : k = c
      · subst hc
        simp [packInsert, lookupGroup, hk, Ne.symm hk]
      · simp [packInsert, lookupGroup, hk, hc, ih]

theorem lookupGroup_packMetrics_aux (c : String) (data : List (String × List ℕ)) :
    ∀ acc : List (String × List ℕ),
    lookupGroup c (data.foldl (fun a d => packInsert a d.1 d.2) acc)
      = match lookupGroup c acc with
        | some v => some (v ++ specChannelBytes c data)
        | none => if c ∈ data.map Prod.fst then some (specChannelBytes c data) else none := by
  induction data with
  | nil =>
    intro acc
    cases h : lookupGroup c acc <;> simp [specChannelBytes, h]
  | cons d rest ih =>
    intro acc
    rw [List.foldl_cons, ih, lookupGroup_packInsert]
    by_cases hd : d.1 = c
    · cases h : lookupGroup c acc with
      | some v =>
        simp [hd, h, specChannelBytes_cons, List.append_assoc]
      | none =>
        simp [hd, h, specChannelBytes_cons]
    · cases h : lookupGroup c acc with
      | some v =>
        simp [hd, h, specChannelBytes_cons]
      | none =>
        by_cases hmem : c ∈ rest.map Prod.fst
        · simp [hd, h, hmem, specChannelBytes_cons, Ne.symm hd]
        · simp [hd, h, hmem, specChannelBytes_cons, Ne.symm hd]

theorem lookupGroup_packMetrics (c : String) (data : List (String × List ℕ)) :
    lookupGroup c (packMetrics data)
      = if c ∈ data.map Prod.fst then some (specChannelBytes c data) else none := by
  have h := lookupGroup_packMetrics_aux c data []
  simpa [packMetrics, lookupGroup] using h

/-- C3: In every 1-second window of the metrics dispatcher, the flush
groups the pushed `(channelName, encodedRow)` pairs by channel in order of
first appearance (one group per channel, no duplicates), concatenates each
channel's rows in arrival order, and issues exactly one `channelData` call
per channel present — pushes `"a"`, `"b"` for channel `"x"` and `"c"` for
channel `"y"` yield the two groups `"x" -> "ab"` and `"y" -> "c"` — while
a window with zero pushes issues no call at all. -/
theorem metrics_flush_grouping :
    (∀ data : List (String × List ℕ),
      (packMetrics data).map Prod.fst = specFirstAppearanceKeys (data.map Prod.fst))
    ∧ (∀ data : List (String × List ℕ), ((packMetrics data).map Prod.fst).Nodup)
    ∧ (∀ (data : List (String × List ℕ)) (c : String),
        lookupGroup c (packMetrics data)
          = if c ∈ data.map Prod.fst then some (specChannelBytes c data) else none)
    ∧ (∀ (d : String × List ℕ) (ds : List (String × List ℕ)),
        on_metric (d :: ds) = (packMetrics (d :: ds)).map fun p => Call.channelData p.1 p.2)
    ∧ on_metric [] = []
    ∧ on_metric [("x", [97]), ("x", [98]), ("y", [99])]
        = [Call.channelData "x" [97, 98], Call.channelData "y" [99]] := by
  refine ⟨packMetrics_keys, ?_, fun data c => lookupGroup_packMetrics c data, ?_, rfl, ?_⟩
  · intro data
    rw [packMetrics_keys]
    exact foldl_insKey_nodup (data.map Prod.fst) [] List.nodup_nil
  · intro d ds
    rw [on_metric, if_neg (by simp)]
  · rfl

/-! ## C4: lazy metric definition -/

/-- C4: Calling `metric(name, x, y)` for a name never defined before
triggers exactly one `defineMetric` call for that name, followed by
exactly one push of the encoded row (whose flush issues exactly one
`channelData` call for that channel), records the name as defined, and
every subsequent `metric` call with the same name triggers no additional
`defineMetric` call. -/
theorem metric_lazy_define (s : Ctx) (name : String) (yVals : List (Option ℕ))
    (xBits tsBits : ℕ) (h : name ∉ s.definedMetrics) :
    (metric s name yVals xBits tsBits).2
      = [Ev.defineMetric name, Ev.pushMetric name (metricRow yVals xBits tsBits),
         Ev.patchChannelLast name yVals]
    ∧ ((metric s name yVals xBits tsBits).2.count (Ev.defineMetric name) = 1)
    ∧ on_metric [(name, metricRow yVals xBits tsBits)]
        = [Call.channelData name (metricRow yVals xBits tsBits)]
    ∧ name ∈ (metric s name yVals xBits tsBits).1.definedMetrics
    ∧ (∀ (s' : Ctx) (y' : List (Option ℕ)) (x' t' : ℕ), name ∈ s'.definedMetrics →
        (metric s' name y' x' t').2.count (Ev.defineMetric name) = 0
        ∧ name ∈ (metric s' name y' x' t').1.definedMetrics) := by
  refine ⟨by simp [metric, h], by simp [metric, h], ?_, by simp [metric, h], ?_⟩
  · rw [on_metric, if_neg (by simp)]
    rfl
  · intro s' y' x' t' h'
    constructor
    · simp [metric, h']
    · simp [metric, h']

/-- Witness for C4, at the spec's example `metric("loss", 3, [1.5, None])`
on a fresh context. -/
theorem metric_lazy_define_witness :
    ("loss" ∉ initCtx.definedMetrics)
    ∧ ((metric initCtx "loss" [some 0x3FF8000000000000, none] 0x4008000000000000 42).2
        = [Ev.defineMetric "loss",
           Ev.pushMetric "loss" (metricRow [some 0x3FF8000000000000, none] 0x4008000000000000 42),
           Ev.patchChannelLast "loss" [some 0x3FF8000000000000, none]]
      ∧ ((metric initCtx "loss" [some 0x3FF8000000000000, none] 0x4008000000000000 42).2.count
            (Ev.defineMetric "loss") = 1)
      ∧ on_metric [("loss", metricRow [some 0x3FF8000000000000, none] 0x4008000000000000 42)]
          = [Call.channelData "loss"
              (metricRow [some 0x3FF8000000000000, none] 0x4008000000000000 42)]
      ∧ "loss" ∈ (metric initCtx "loss" [some 0x3FF8000000000000, none]
            0x4008000000000000 42).1.definedMetrics
      ∧ (∀ (s' : Ctx) (y' : List (Option ℕ)) (x' t' : ℕ), "loss" ∈ s'.definedMetrics →
          (metric s' "loss" y' x' t').2.count (Ev.defineMetric "loss") = 0
          ∧ "loss" ∈ (metric s' "loss" y' x' t').1.definedMetrics)) :=
  ⟨by simp [initCtx],
   metric_lazy_define initCtx "loss" [some 0x3FF8000000000000, none]
     0x4008000000000000 42 (by simp [initCtx])⟩

/-! ## C5: shutdown idempotence -/

/-- C5 counterexample: calling `shutdown()` twice on a fresh context
produces zero completions of the speed dispatcher and zero of the
hardware dispatcher, refuting "exactly one completion of each dispatcher
— metrics, log, speed, and hardware". -/
theorem shutdown_twice_speed_counterexample :
    shutdownTwiceEvents.count Ev.completeSpeedSubject = 0
    ∧ ¬ shutdownTwiceEvents.count Ev.completeSpeedSubject = 1
    ∧ shutdownTwiceEvents.count Ev.completeHardwareTimer = 0 := by
  refine ⟨?_, ?_, ?_⟩ <;> simp [shutdownTwiceEvents, shutdown, initCtx]

/-- C5 (amended): Calling `shutdown()` twice produces exactly one
completion of the metric subject, exactly one completion of the log
subject, and exactly one `client.shutdown()` (closing the connection);
the speed-report subject and the hardware timer are never completed, and
the second call is a no-op. -/
theorem shutdown_idempotent_amended (s : Ctx) (h : s.shuttingDown = false) :
    ((shutdown s).2 ++ (shutdown (shutdown s).1).2).count Ev.completeMetricSubject = 1
    ∧ ((shutdown s).2 ++ (shutdown (shutdown s).1).2).count Ev.completeLogSubject = 1
    ∧ ((shutdown s).2 ++ (shutdown (shutdown s).1).2).count Ev.clientShutdown = 1
    ∧ ((shutdown s).2 ++ (shutdown (shutdown s).1).2).count Ev.completeSpeedSubject = 0
    ∧ ((shutdown s).2 ++ (shutdown (shutdown s).1).2).count Ev.completeHardwareTimer = 0
    ∧ (shutdown (shutdown s).1).2 = []
    ∧ (shutdown (shutdown s).1).1 = (shutdown s).1 := by
  refine ⟨?_, ?_, ?_, ?_, ?_, ?_, ?_⟩ <;> simp [shutdown, h]

/-- Witness for C5 (amended), on the fresh context. -/
theorem shutdown_idempotent_amended_witness :
    initCtx.shuttingDown = false
    ∧ (((shutdown initCtx).2 ++ (shutdown (shutdown initCtx).1).2).count Ev.completeMetricSubject = 1
      ∧ ((shutdown initCtx).2 ++ (shutdown (shutdown initCtx).1).2).count Ev.completeLogSubject = 1
      ∧ ((shutdown initCtx).2 ++ (shutdown (shutdown initCtx).1).2).count Ev.clientShutdown = 1
      ∧ ((shutdown initCtx).2 ++ (shutdown (shutdown initCtx).1).2).count Ev.completeSpeedSubject = 0
      ∧ ((shutdown initCtx).2 ++ (shutdown (shutdown initCtx).1).2).count Ev.completeHardwareTimer = 0
      ∧ (shutdown (shutdown initCtx).1).2 = []
      ∧ (shutdown (shutdown initCtx).1).1 = (shutdown initCtx).1) :=
  ⟨rfl, shutdown_idempotent_amended initCtx rfl⟩

/-! ## C8: speed dispatcher keeps the latest row -/

/-- C8: A 1-second window of the speed dispatcher that received at least
one pushed speed row flushes exactly one `streamFile` call carrying only
the last row pushed in that window, discarding all earlier rows; a window
with zero pushes issues no call. -/
theorem speed_flush_latest_only :
    (∀ (rs : List (List ℕ)) (r : List ℕ),
      on_speed_report (rs ++ [r]) = [Call.streamFile ".deepkit/speed.metric" r])
    ∧ on_speed_report [] = [] := by
  constructor
  · intro rs r
    rw [on_speed_report, if_neg (by simp)]
    rw [List.getLastD_concat]
  · rfl

/-! ## C9: `step` with `total = 0` fails fast -/

/-- C9: Calling `step` with `total = 0` raises a `ZeroDivisionError`
(a descriptive contract-violation error) at the `current / total`
expression: the only effect performed by the call is the
`patch('step', current)` issued before the failing expression — no
further state patch and no speed row is produced, and the context state
is untouched (the error is returned before any assignment). -/
theorem step_total_zero_fails_fast (s : Ctx) (now : ℚ) (current : ℤ) (size : ℚ) :
    step s now current (some 0) size
      = ([Ev.patch "step" (current : ℚ)],
         Except.error "ZeroDivisionError: division by zero")
    ∧ (∀ x ts sp, Ev.speedRow x ts sp ∉ (step s now current (some 0) size).1)
    ∧ (∀ k v, Ev.patch k v ∈ (step s now current (some 0) size).1 →
        k = "step" ∧ v = (current : ℚ)) := by
  refine ⟨by simp [step], ?_, ?_⟩
  · intro x ts sp
    simp [step]
  · intro k v hv
    simp [step] at hv
    exact ⟨hv.1, hv.2⟩

/-! ## C10: `iteration` with falsy `total` keeps the stored total -/

/-- C10: For every call `iteration(current, total)` in which `total` is
`None` or `0`, the stored total-iteration counter `job_iterations` keeps
its previous value, no `iterations` state patch is emitted, and the ETA
patch of the call is computed from that unchanged previous total (it is
the unique `eta` patch of the call). -/
theorem iteration_total_falsy_keeps_total (s : Ctx) (now : ℚ) (current : ℤ) :
    ((iteration s now current none).1.jobIterations = s.jobIterations
      ∧ (∀ v, Ev.patch "iterations" v ∉ (iteration s now current none).2)
      ∧ Ev.patch "eta" (if 0 < s.jobIterations - current
            then (iteration s now current none).1.secondsPerIteration
              * ((s.jobIterations - current : ℤ) : ℚ)
            else 0) ∈ (iteration s now current none).2
      ∧ (∀ v, Ev.patch "eta" v ∈ (iteration s now current none).2 →
          v = (if 0 < s.jobIterations - current
            then (iteration s now current none).1.secondsPerIteration
              * ((s.jobIterations - current : ℤ) : ℚ)
            else 0)))
    ∧ ((iteration s now current (some 0)).1.jobIterations = s.jobIterations
      ∧ (∀ v, Ev.patch "iterations" v ∉ (iteration s now current (some 0)).2)
      ∧ Ev.patch "eta" (if 0 < s.jobIterations - current
            then (iteration s now current (some 0)).1.secondsPerIteration
              * ((s.jobIterations - current : ℤ) : ℚ)
            else 0) ∈ (iteration s now current (some 0)).2
      ∧ (∀ v, Ev.patch "eta" v ∈ (iteration s now current (some 0)).2 →
          v = (if 0 < s.jobIterations - current
            then (iteration s now current (some 0)).1.secondsPerIteration
              * ((s.jobIterations - current : ℤ) : ℚ)
            else 0))) := by
  constructor <;>
  · refine ⟨rfl, ?_, ?_, ?_⟩
    · intro v
      simp [iteration, intTruthy]
    · simp [iteration, intTruthy]
    · intro v hv
      simp [iteration, intTruthy] at hv
      subst hv
      simp [iteration, intTruthy, sub_pos, Int.cast_sub]

/-! ## C6: hardware row layout and 16-bit scaling -/

theorem scale16_eq_floor (frac : ℚ) (h0 : 0 ≤ frac) (h1 : frac ≤ 1) :
    (scale16 frac : ℤ) = ⌊frac * 65535⌋ ∧ scale16 frac < 65536 := by
  have hmul0 : (0 : ℚ) ≤ frac * 65535 := by positivity
  have hfl0 : (0 : ℤ) ≤ ⌊frac * 65535⌋ := Int.floor_nonneg.mpr hmul0
  have hmul1 : frac * 65535 ≤ 65535 := by nlinarith
  have hfl1 : ⌊frac * 65535⌋ ≤ 65535 := by
    have h := Int.floor_le_floor hmul1
    simpa using h
  constructor
  · rw [scale16, pyInt, if_pos hmul0, Int.toNat_of_nonneg hfl0]
  · rw [scale16, pyInt, if_pos hmul0]
    omega

/-- C6 (amended): every encoded hardware row follows the little-endian
layout version(1B) `1` · reserved(2B) `0` · timestamp(8B) ·
cpuFraction(2B) · memFraction(2B) · netBytesRecv(4B) · netBytesSent(4B) ·
diskBytesWritten(4B) · diskBytesRead(4B), and the CPU and memory
utilization fractions (each in `[0, 1]`) are scaled to the 16-bit fields
as `int(fraction * 65535)`, i.e. the floor `⌊fraction * 65535⌋` —
truncation, not `round(fraction * 65535)`. -/
theorem hardware_row_layout_amended (tsBits recvBits sentBits wBits rBits : ℕ)
    (cpuFrac memFrac : ℚ)
    (hts : tsBits < 2 ^ 64) (hrecv : recvBits < 2 ^ 32) (hsent : sentBits < 2 ^ 32)
    (hwb : wBits < 2 ^ 32) (hrb : rBits < 2 ^ 32)
    (hc0 : 0 ≤ cpuFrac) (hc1 : cpuFrac ≤ 1) (hm0 : 0 ≤ memFrac) (hm1 : memFrac ≤ 1) :
    decodeHardwareRow (hardwareRow tsBits cpuFrac memFrac recvBits sentBits wBits rBits)
      = some (1, 0, tsBits, scale16 cpuFrac, scale16 memFrac,
          recvBits, sentBits, wBits, rBits)
    ∧ (scale16 cpuFrac : ℤ) = ⌊cpuFrac * 65535⌋
    ∧ (scale16 memFrac : ℤ) = ⌊memFrac * 65535⌋ := by
  obtain ⟨hceq, hclt⟩ := scale16_eq_floor cpuFrac hc0 hc1
  obtain ⟨hmeq, hmlt⟩ := scale16_eq_floor memFrac hm0 hm1
  refine ⟨?_, hceq, hmeq⟩
  have h1 : (1 : ℕ) < 256 ^ 1 := by norm_num
  have h0 : (0 : ℕ) < 256 ^ 2 := by norm_num
  have hts8 : tsBits < 256 ^ 8 := by norm_num at hts ⊢; omega
  have hcpu2 : scale16 cpuFrac < 256 ^ 2 := by norm_num; omega
  have hmem2 : scale16 memFrac < 256 ^ 2 := by norm_num; omega
  have hrecv4 : recvBits < 256 ^ 4 := by norm_num at hrecv ⊢; omega
  have hsent4 : sentBits < 256 ^ 4 := by norm_num at hsent ⊢; omega
  have hwb4 : wBits < 256 ^ 4 := by norm_num at hwb ⊢; omega
  have hrb4 : rBits < 256 ^ 4 := by norm_num at hrb ⊢; omega
  rw [hardwareRow, decodeHardwareRow]
  simp only [List.append_assoc]
  rw [readN_leBytes 1 1 _ h1, Option.some_bind,
      readN_leBytes 2 0 _ h0, Option.some_bind,
      readN_leBytes 8 tsBits _ hts8, Option.some_bind,
      readN_leBytes 2 (scale16 cpuFrac) _ hcpu2, Option.some_bind,
      readN_leBytes 2 (scale16 memFrac) _ hmem2, Option.some_bind,
      readN_leBytes 4 recvBits _ hrecv4, Option.some_bind,
      readN_leBytes 4 sentBits _ hsent4, Option.some_bind,
      readN_leBytes 4 wBits _ hwb4, Option.some_bind,
      show leBytes 4 rBits = leBytes 4 rBits ++ [] from (List.append_nil _).symm,
      readN_leBytes 4 rBits [] hrb4, Option.some_bind]

/-- Witness for C6 (amended), at `cpuFrac = 1/2`, `memFrac = 1/4` and
small concrete bit patterns. -/
theorem hardware_row_layout_amended_witness :
    ((7 : ℕ) < 2 ^ 64 ∧ (8 : ℕ) < 2 ^ 32 ∧ (9 : ℕ) < 2 ^ 32
      ∧ (10 : ℕ) < 2 ^ 32 ∧ (11 : ℕ) < 2 ^ 32
      ∧ (0 : ℚ) ≤ 1 / 2 ∧ (1 / 2 : ℚ) ≤ 1 ∧ (0 : ℚ) ≤ 1 / 4 ∧ (1 / 4 : ℚ) ≤ 1)
    ∧ (decodeHardwareRow (hardwareRow 7 (1 / 2) (1 / 4) 8 9 10 11)
        = some (1, 0, 7, scale16 (1 / 2), scale16 (1 / 4), 8, 9, 10, 11)
      ∧ (scale16 (1 / 2 : ℚ) : ℤ) = ⌊(1 / 2 : ℚ) * 65535⌋
      ∧ (scale16 (1 / 4 : ℚ) : ℤ) = ⌊(1 / 4 : ℚ) * 65535⌋) :=
  ⟨⟨by norm_num, by norm_num, by norm_num, by norm_num, by norm_num,
    by norm_num, by norm_num, by norm_num, by norm_num⟩,
   hardware_row_layout_amended 7 8 9 10 11 (1 / 2) (1 / 4)
     (by norm_num) (by norm_num) (by norm_num) (by norm_num) (by norm_num)
     (by norm_num) (by norm_num) (by norm_num) (by norm_num)⟩

/-- C6 counterexample: at `cpuFraction = 1/2` the 16-bit CPU field of the
encoded hardware row (bytes 11-12, little-endian) holds
`int(0.5 * 65535) = 32767`, while `round(0.5 * 65535) = 32768`: the code
truncates, it does not round as the claim states. -/
theorem hardware_scaling_counterexample :
    readLE (((hardwareRow 0 (1 / 2) 0 0 0 0 0).drop 11).take 2) = 32767
    ∧ round (((1 : ℚ) / 2) * 65535) = 32768
    ∧ ¬ ((readLE (((hardwareRow 0 (1 / 2) 0 0 0 0 0).drop 11).take 2) : ℤ)
          = round (((1 : ℚ) / 2) * 65535)) := by
  have hround : round (((1 : ℚ) / 2) * 65535) = 32768 := by
    rw [round_eq]
    rw [Int.floor_eq_iff]
    constructor <;> norm_num
  have hfl : ⌊((1 : ℚ) / 2) * 65535⌋ = 32767 := by
    rw [Int.floor_eq_iff]
    constructor <;> norm_num
  have hs : scale16 ((1 : ℚ) / 2) = 32767 := by
    rw [scale16, pyInt, if_pos (by norm_num), hfl]
    rfl
  have hz : scale16 (0 : ℚ) = 0 := by
    rw [scale16, pyInt, if_pos (by norm_num : (0 : ℚ) ≤ 0 * 65535)]
    norm_num
  have hrow : hardwareRow 0 (1 / 2) 0 0 0 0 0
      = leBytes 1 1 ++ leBytes 2 0 ++ leBytes 8 0 ++ leBytes 2 32767 ++ leBytes 2 0
        ++ leBytes 4 0 ++ leBytes 4 0 ++ leBytes 4 0 ++ leBytes 4 0 := by
    rw [hardwareRow, hs, hz]
  refine ⟨by rw [hrow]; decide, hround, ?_⟩
  rw [hround, hrow]
  decide

/-! ## C7: the average rate and the empty window -/

theorem spi_if_length (w : List Sample) (old : ℚ) :
    (if 0 < w.length then meanDiffs w else old)
      = if w = [] then old else meanDiffs w := by
  by_cases h : w = []
  · simp [h]
  · simp [h, List.length_pos.mpr h]

/-- C7 (amended): after an `iteration` call or a successful `step` call,
the rolling-window average rate `seconds_per_iteration` equals the mean of
the retained diff samples whenever the retained window is non-empty, but
whenever the retained window is empty it keeps the value it had before
the call — the sentinel `0` only until the first sample is recorded
(`initCtx`), a stale previous mean otherwise — rather than resetting to
`0` when pruning empties the window. -/
theorem average_rate_amended (s : Ctx) (now : ℚ) (current : ℤ) (total : Option ℤ)
    (t : ℤ) (size : ℚ) (s' : Ctx) (ht : t ≠ 0)
    (hdb : ¬(s.lastBatchTime ≠ 0 ∧ now - s.lastBatchTime = 0))
    (hok : (step s now current (some t) size).2 = Except.ok s') :
    initCtx.secondsPerIteration = 0
    ∧ ((iteration s now current total).1.secondsPerIteration
        = if (iteration s now current total).1.secondsPerIterations = []
          then s.secondsPerIteration
          else meanDiffs (iteration s now current total).1.secondsPerIterations)
    ∧ (s'.secondsPerIteration
        = if s'.secondsPerIterations = [] then s.secondsPerIteration
          else meanDiffs s'.secondsPerIterations) := by
  refine ⟨rfl, ?_, ?_⟩
  · exact spi_if_length _ _
  · simp only [step, if_neg ht, if_neg hdb] at hok
    rw [Except.ok.injEq] at hok
    subst hok
    exact spi_if_length _ _

/-- Witness for C7 (amended): `iteration(1, 2)` and `step(1, 2, 1)` at
time 100 on a fresh context. -/
theorem average_rate_amended_witness :
    ((2 : ℤ) ≠ 0
      ∧ ¬(initCtx.lastBatchTime ≠ 0 ∧ (100 : ℚ) - initCtx.lastBatchTime = 0)
      ∧ (step initCtx 100 1 (some 2) 1).2
          = Except.ok { initCtx with lastBatchTime := 100 })
    ∧ (initCtx.secondsPerIteration = 0
      ∧ ((iteration initCtx 100 1 (some 2)).1.secondsPerIteration
          = if (iteration initCtx 100 1 (some 2)).1.secondsPerIterations = []
            then initCtx.secondsPerIteration
            else meanDiffs (iteration initCtx 100 1 (some 2)).1.secondsPerIterations)
      ∧ ({ initCtx with lastBatchTime := 100 }.secondsPerIteration
          = if ({ initCtx with lastBatchTime := (100 : ℚ) }).secondsPerIterations = []
            then initCtx.secondsPerIteration
            else meanDiffs ({ initCtx with lastBatchTime := (100 : ℚ) }).secondsPerIterations)) :=
  ⟨⟨by decide, by simp [initCtx], rfl⟩,
   average_rate_amended initCtx 100 1 (some 2) 2 1 { initCtx with lastBatchTime := 100 }
     (by decide) (by simp [initCtx]) rfl⟩

/-- C7 counterexample: the trace `step(1, 2, 1)` at `t = 100`,
`step(1, 2, 1)` at `t = 101`, `iteration(1, 2)` at `t = 130` leaves the
rolling window empty (the only sample, recorded at 101, is older than
twenty seconds at 130 and `last_iteration_time` was still `0`, so nothing
is appended) while `seconds_per_iteration` is still `2`, not the
sentinel `0` the claim requires for an empty window. -/
theorem stale_average_counterexample :
    c7FinalCtx.secondsPerIterations = []
    ∧ c7FinalCtx.secondsPerIteration = 2
    ∧ ¬ c7FinalCtx.secondsPerIteration = 0 := by
  have h1 : c7Step1 = { initCtx with lastBatchTime := 100 } := by
    rfl
  have h2 : c7Step2 =
      { initCtx with
        lastBatchTime := 101,
        secondsPerIteration := 2,
        secondsPerIterations := [⟨2, 101⟩] } := by
    rw [c7Step2, h1]
    norm_num [step, initCtx, pruneWindow, takeLast, meanDiffs, List.filter,
      Except.toOption]
  have h3 : c7FinalCtx =
      { initCtx with
        lastIterationTime := 130,
        lastBatchTime := 130,
        jobIteration := 1,
        jobIterations := 2,
        secondsPerIteration := 2,
        secondsPerIterations := [] } := by
    rw [c7FinalCtx, h2]
    norm_num [iteration, initCtx, intTruthy, pruneWindow, takeLast, meanDiffs,
      List.filter]
  rw [h3]
  refine ⟨rfl, rfl, by norm_num⟩

/-! ## Bridging lemmas: `iteration` and `step` perform `record` operations -/

theorem iteration_performs_record (s : Ctx) (now : ℚ) (current : ℤ)
    (total : Option ℤ) (h : s.lastIterationTime ≠ 0) :
    ((iteration s now current total).1.secondsPerIterations,
      (iteration s now current total).1.secondsPerIteration)
      = record s.secondsPerIterations s.secondsPerIteration
          (now - s.lastIterationTime) now := by
  simp [iteration, record, h]

theorem step_performs_record (s : Ctx) (now : ℚ) (current : ℤ) (t : ℤ)
    (size : ℚ) (s' : Ctx) (ht : t ≠ 0) (hb : s.lastBatchTime ≠ 0)
    (hnb : ¬ now - s.lastBatchTime = 0)
    (hok : (step s now current (some t) size).2 = Except.ok s') :
    (s'.secondsPerIterations, s'.secondsPerIteration)
      = record s.secondsPerIterations s.secondsPerIteration
          ((now - s.lastBatchTime) * (t : ℚ)) now := by
  simp only [step, if_neg ht,
    if_neg (by tauto : ¬(s.lastBatchTime ≠ 0 ∧ now - s.lastBatchTime = 0))] at hok
  rw [Except.ok.injEq] at hok
  subst hok
  simp [record, hb]
